import Mathlib

/-!
Shallow embedding of the chat_app library core (src/lib.rs, src/auth.rs,
src/models.rs) used by the claim theorems below.

Modelling conventions:
- Machine integers (i32 row ids) are `Int`; timestamps (RFC3339 strings written
  from a single local clock, compared as strings in SQL) are `Nat`, since for one
  process with a fixed offset the lexicographic order of the strings coincides
  with the chronological order.
- The SQLite tables are lists of rows in insertion order; `filter`, `find?`,
  appending and mapping model the diesel queries used by the code. Engine and
  connection-pool faults are environmental; the one fault the claims need
  (credential storage failing inside `register`) is injected through an explicit
  boolean parameter.
- Randomness (the login token and the hash salt) is passed in as a parameter.
- A Rust panic (`Vec::remove` with an out-of-bounds index) is modelled by
  `Option`: a result of `none` means the operation panics.
-/

/-- Modelled from the spec: the password-hashing primitive (argon2 in
src/auth.rs) is an external collaborator (section 6) with the contract
`hash(password) -> encoded_hash_string` and
`verify(password, encoded_hash_string) -> bool`, where verification succeeds
exactly for the password the hash was produced from. The encoded string is
modelled as an abstract pair of the salt and the hashed password. -/
structure HashString where
  salt : Nat
  pw : String
deriving Repr, DecidableEq

/-- Modelled from the spec: `generate_hash` of src/auth.rs hashes the password
with a random salt (the salt is passed in as a parameter here). -/
def generate_hash (password : String) (salt : Nat) : HashString :=
  { salt := salt, pw := password }

/-- Modelled from the spec: `verify_password` of src/auth.rs checks the
password against the stored encoded hash. -/
def verify_password (password : String) (hashed : HashString) : Bool :=
  password == hashed.pw

/-- Row of the `users` table (struct `User` in src/models.rs). -/
structure User where
  id : Int
  username : String
deriving Repr, DecidableEq

/-- Row of the `authentications` table (struct `Authentication` in
src/models.rs). -/
structure Authentication where
  id : Int
  userid : Int
  hashedpassword : HashString
deriving Repr, DecidableEq

/-- Row of the `messages` table (struct `Message` in src/models.rs). -/
structure Message where
  id : Int
  date : Nat
  messagetext : String
  userid : Int
deriving Repr, DecidableEq

/-- State of the SQLite database: the three tables in row order, plus the next
autoincrement id of each table. -/
structure Db where
  users : List User
  auths : List Authentication
  messages : List Message
  nextUserId : Int
  nextAuthId : Int
  nextMessageId : Int
deriving Repr, DecidableEq

/-- Mirror of `enum DbError` in src/lib.rs (payload-free). -/
inductive DbError where
  | ConnectionFailure
  | MigrationFailure
  | UserCreationFailed
  | UsernameInUse
  | UserFilterFailed
  | UsernameCollisionDetected
  | UserNotFound
  | GenericError
  | PoolError
  | NoPasswordSet
deriving Repr, DecidableEq

/-- Mirror of `enum AppError` in src/lib.rs. -/
inductive AppError where
  | DatabaseError (e : DbError)
  | PoolError
  | LoginFailed
  | TokenInvalid
deriving Repr, DecidableEq

/-- Mirror of `get_user_by_name` in src/lib.rs: load the users whose username
equals the name; more than one is a collision error, none is `UserNotFound`,
otherwise the single row is returned. -/
def get_user_by_name (db : Db) (name : String) : Except DbError User :=
  match db.users.filter (fun u => u.username == name) with
  | [] => .error .UserNotFound
  | [u] => .ok u
  | _ => .error .UsernameCollisionDetected

/-- Helper mirroring `Result::is_ok`. -/
def exceptIsOk : Except DbError User → Bool
  | .ok _ => true
  | .error _ => false

/-- Mirror of `create_user` in src/lib.rs: if `get_user_by_name` succeeds the
name is in use; otherwise the new row is inserted. -/
def create_user (db : Db) (name : String) : Except DbError Unit × Db :=
  if exceptIsOk (get_user_by_name db name) then
    (.error .UsernameInUse, db)
  else
    (.ok (), { db with
      users := db.users ++ [{ id := db.nextUserId, username := name }],
      nextUserId := db.nextUserId + 1 })

/-- Mirror of `set_password` in src/lib.rs: hash the password, look the user
up, then update the existing authentication rows for that user or insert a new
one. `storeOk` injects the outcome of the diesel write (false models a storage
failure, surfaced by the code as the generic engine error). -/
def set_password (db : Db) (username password : String) (salt : Nat)
    (storeOk : Bool) : Except DbError Unit × Db :=
  let hash := generate_hash password salt
  match get_user_by_name db username with
  | .error e => (.error e, db)
  | .ok user =>
    if db.auths.any (fun a => a.userid == user.id) then
      if storeOk then
        (.ok (), { db with auths := db.auths.map (fun a =>
          if a.userid == user.id then { a with hashedpassword := hash } else a) })
      else (.error .GenericError, db)
    else
      if storeOk then
        (.ok (), { db with
          auths := db.auths ++
            [{ id := db.nextAuthId, userid := user.id, hashedpassword := hash }],
          nextAuthId := db.nextAuthId + 1 })
      else (.error .GenericError, db)

/-- Mirror of `check_password` in src/lib.rs: look the user up, take the first
authentication row of that user (`NoPasswordSet` if there is none), and verify
the password against the stored hash. -/
def check_password (db : Db) (username password : String) : Except DbError Bool :=
  match get_user_by_name db username with
  | .error e => .error e
  | .ok user =>
    match db.auths.find? (fun a => a.userid == user.id) with
    | none => .error .NoPasswordSet
    | some auth => .ok (verify_password password auth.hashedpassword)

/-- Mirror of `create_message` in src/lib.rs: insert a message row stamped with
the current time. -/
def create_message (db : Db) (text : String) (userid : Int) (now : Nat) :
    Except DbError Unit × Db :=
  (.ok (), { db with
    messages := db.messages ++
      [{ id := db.nextMessageId, date := now, messagetext := text, userid := userid }],
    nextMessageId := db.nextMessageId + 1 })

/-- Mirror of `enum MessageFilter` in src/lib.rs. -/
inductive MessageFilter where
  | Before (t : Nat)
  | After (t : Nat)

/-- Predicate of the SQL `WHERE` clause generated for each filter: strictly
earlier than the bound for `Before`, strictly later for `After`. -/
def matchesFilter (f : MessageFilter) (m : Message) : Bool :=
  match f with
  | .Before t => decide (m.date < t)
  | .After t => decide (t < m.date)

/-- Order used by the `ORDER BY date` clause. -/
def dateLe (a b : Message) : Prop := a.date ≤ b.date

instance : DecidableRel dateLe := fun a b => Nat.decLe a.date b.date

instance : IsTotal Message dateLe := ⟨fun a b => Nat.le_total a.date b.date⟩

instance : IsTrans Message dateLe := ⟨fun _ _ _ h1 h2 => Nat.le_trans h1 h2⟩

/-- Mirror of the free function `get_messages` in src/lib.rs: the generated SQL
filters the rows by the date bound, orders them by date ascending and returns
at most the first 20. -/
def get_messages (db : Db) (filter : MessageFilter) : List Message :=
  (List.insertionSort dateLe (db.messages.filter (matchesFilter filter))).take 20

/-- Mirror of `struct ActiveLogin` in src/lib.rs. The `LoginToken` newtype
around `String` is flattened to `String`. -/
structure ActiveLogin where
  username : String
  token : String
  validUntil : Nat
deriving Repr, DecidableEq

/-- Mirror of `ActiveLogin::new` in src/lib.rs: the random base64 token is
passed in as a parameter, and the session is valid for 1200 seconds
(20 minutes) from now. -/
def ActiveLogin.new (username token : String) (now : Nat) : ActiveLogin :=
  { username := username, token := token, validUntil := now + 1200 }

/-- Mirror of `struct ChatApp` in src/lib.rs: the connection pool is replaced
by the database state itself. -/
structure ChatApp where
  db : Db
  activeLogins : List ActiveLogin
deriving Repr, DecidableEq

/-- Mirror of the scan loop of `ChatApp::get_username_for_token` in src/lib.rs:
walk the sessions with their index; an expired session pushes its index (taken
in the original vector) onto the prune list and is skipped; a live session with
a different token is skipped; a live session with the queried token overwrites
`found` with its username. -/
def scanLoop (now : Nat) (token : String) :
    List ActiveLogin → Nat → Option String → List Nat → Option String × List Nat
  | [], _, found, toPrune => (found, toPrune)
  | l :: ls, i, found, toPrune =>
    if l.validUntil < now then
      scanLoop now token ls (i + 1) found (toPrune ++ [i])
    else if l.token ≠ token then
      scanLoop now token ls (i + 1) found toPrune
    else
      scanLoop now token ls (i + 1) (some l.username) toPrune

/-- Mirror of `Vec::remove`: removing at an out-of-bounds index panics, which
is modelled by `none`. -/
def listRemove {α : Type} : List α → Nat → Option (List α)
  | [], _ => none
  | _ :: xs, 0 => some xs
  | x :: xs, n + 1 => (listRemove xs n).map (fun ys => x :: ys)

/-- Mirror of the prune loop of `ChatApp::get_username_for_token`: the
collected indices are removed one after the other from the shrinking vector. -/
def pruneAll : List ActiveLogin → List Nat → Option (List ActiveLogin)
  | logins, [] => some logins
  | logins, i :: is =>
    match listRemove logins i with
    | none => none
    | some logins' => pruneAll logins' is

/-- Mirror of `ChatApp::get_username_for_token` in src/lib.rs: scan for the
queried token while collecting the indices of expired sessions, then remove
those indices. The result is the found username (if any) together with the
session list after pruning; `none` means the prune loop panicked. -/
def getUsernameForToken (now : Nat) (token : String) (logins : List ActiveLogin) :
    Option (Option String × List ActiveLogin) :=
  let res := scanLoop now token logins 0 none []
  match pruneAll logins res.2 with
  | none => none
  | some logins' => some (res.1, logins')

/-- Mirror of `ChatApp::get_user_for_token` in src/lib.rs: resolve the token to
a username (failing with `TokenInvalid` when there is none), then load the user
row by name. -/
def ChatApp.getUserForToken (app : ChatApp) (token : String) (now : Nat) :
    Option (Except AppError User × ChatApp) :=
  match getUsernameForToken now token app.activeLogins with
  | none => none
  | some (none, logins') =>
    some (.error .TokenInvalid, { app with activeLogins := logins' })
  | some (some username, logins') =>
    let app' := { app with activeLogins := logins' }
    match get_user_by_name app'.db username with
    | .error e => some (.error (.DatabaseError e), app')
    | .ok user => some (.ok user, app')

/-- Mirror of `ChatApp::register` in src/lib.rs: create the user, then set its
password; each step propagates its database error, and there is no transaction
around the two writes. -/
def ChatApp.register (app : ChatApp) (username password : String) (salt : Nat)
    (credStoreOk : Bool) : Except AppError Unit × ChatApp :=
  match create_user app.db username with
  | (.error e, db') => (.error (.DatabaseError e), { app with db := db' })
  | (.ok _, db') =>
    match set_password db' username password salt credStoreOk with
    | (.error e, db2) => (.error (.DatabaseError e), { app with db := db2 })
    | (.ok _, db2) => (.ok (), { app with db := db2 })

/-- Mirror of `ChatApp::login` in src/lib.rs: check the password (database
errors propagate); on a match push a fresh `ActiveLogin` (the random token is
the `token` parameter) and return its token, otherwise fail with
`LoginFailed`. -/
def ChatApp.login (app : ChatApp) (username password token : String) (now : Nat) :
    Except AppError String × ChatApp :=
  match check_password app.db username password with
  | .error e => (.error (.DatabaseError e), app)
  | .ok true =>
    (.ok token, { app with
      activeLogins := app.activeLogins ++ [ActiveLogin.new username token now] })
  | .ok false => (.error .LoginFailed, app)

/-- Mirror of the removal loop of `ChatApp::logout` in src/lib.rs: remove the
first session holding the token and stop; removing nothing is fine. -/
def logoutList (token : String) : List ActiveLogin → List ActiveLogin
  | [] => []
  | l :: ls => if l.token == token then ls else l :: logoutList token ls

/-- Mirror of `ChatApp::logout` in src/lib.rs. The Rust function returns unit
and has no failure path. -/
def ChatApp.logout (app : ChatApp) (token : String) : ChatApp :=
  { app with activeLogins := logoutList token app.activeLogins }

/-- Mirror of `ChatApp::send_message` in src/lib.rs: resolve the token to a
user, then insert the message; the success value is unit. `none` again means
the prune pass inside the token resolution panicked. -/
def ChatApp.sendMessage (app : ChatApp) (token text : String) (now : Nat) :
    Option (Except AppError Unit × ChatApp) :=
  match app.getUserForToken token now with
  | none => none
  | some (.error e, app') => some (.error e, app')
  | some (.ok user, app') =>
    match create_message app'.db text user.id now with
    | (.error e, db') => some (.error (.DatabaseError e), { app' with db := db' })
    | (.ok _, db') => some (.ok (), { app' with db := db' })

/-- Mirror of `ChatApp::get_messages` in src/lib.rs: resolve the token (its
username is discarded), failing with `TokenInvalid` when there is none, then
run the filtered query. -/
def ChatApp.getMessages (app : ChatApp) (token : String) (filter : MessageFilter)
    (now : Nat) : Option (Except AppError (List Message) × ChatApp) :=
  match getUsernameForToken now token app.activeLogins with
  | none => none
  | some (none, logins') =>
    some (.error .TokenInvalid, { app with activeLogins := logins' })
  | some (some _, logins') =>
    some (.ok (get_messages app.db filter), { app with activeLogins := logins' })

/-- Predicate for a session that the scan loop can report: not expired and
holding the queried token. -/
def liveMatch (now : Nat) (token : String) (l : ActiveLogin) : Bool :=
  !(decide (l.validUntil < now)) && (l.token == token)

/-- Username reported by the scan loop: the username of the last live session
holding the queried token, if any. -/
def lastLive (now : Nat) (token : String) : List ActiveLogin → Option String
  | [] => none
  | l :: ls =>
    match lastLive now token ls with
    | some u => some u
    | none => if liveMatch now token l then some l.username else none

/-- Decidable equality for `Except`, so that concrete runs of the operations
can be checked by evaluation. -/
def exceptDecEq {e a : Type} [DecidableEq e] [DecidableEq a] :
    (x y : Except e a) → Decidable (x = y)
  | .error u, .error v =>
    if h : u = v then .isTrue (by rw [h])
    else .isFalse (by intro hh; cases hh; exact h rfl)
  | .error _, .ok _ => .isFalse (by intro hh; cases hh)
  | .ok _, .error _ => .isFalse (by intro hh; cases hh)
  | .ok u, .ok v =>
    if h : u = v then .isTrue (by rw [h])
    else .isFalse (by intro hh; cases hh; exact h rfl)

instance {e a : Type} [DecidableEq e] [DecidableEq a] : DecidableEq (Except e a) :=
  exceptDecEq

/-- Expired session (valid until 0) used by the failing inputs of the prune
pass. -/
def sessA : ActiveLogin := { username := "a", token := "ta", validUntil := 0 }

/-- Second expired session (valid until 1). -/
def sessB : ActiveLogin := { username := "b", token := "tb", validUntil := 1 }

/-- Live session (valid until 100). -/
def sessC : ActiveLogin := { username := "c", token := "tc", validUntil := 100 }

/-- Empty database. -/
def dbEmpty : Db :=
  { users := [], auths := [], messages := [],
    nextUserId := 0, nextAuthId := 0, nextMessageId := 0 }

/-- Fresh application state. -/
def appFresh : ChatApp := { db := dbEmpty, activeLogins := [] }

/-- Database holding the registered user alice with password pw1 (salt 7),
exactly the state produced by registering alice on the fresh state. -/
def dbAlice : Db :=
  { users := [{ id := 0, username := "alice" }],
    auths := [{ id := 0, userid := 0, hashedpassword := { salt := 7, pw := "pw1" } }],
    messages := [], nextUserId := 1, nextAuthId := 1, nextMessageId := 0 }

/-- Application state with alice registered and no active session. -/
def appAlice : ChatApp := { db := dbAlice, activeLogins := [] }

/-- Application state with alice registered and one live session for token t. -/
def appAliceLive : ChatApp :=
  { db := dbAlice,
    activeLogins := [{ username := "alice", token := "t", validUntil := 1250 }] }

/-- Application state with a single expired session bound to token t. -/
def appExpired : ChatApp :=
  { db := dbEmpty, activeLogins := [{ username := "a", token := "t", validUntil := 5 }] }

/-- Message store with three messages in non-chronological row order. -/
def dbMsgs : Db :=
  { users := [], auths := [],
    messages := [{ id := 0, date := 3, messagetext := "m0", userid := 0 },
                 { id := 1, date := 7, messagetext := "m1", userid := 0 },
                 { id := 2, date := 1, messagetext := "m2", userid := 0 }],
    nextUserId := 0, nextAuthId := 0, nextMessageId := 3 }

/-- Message store with 25 messages, all with positive dates, in reverse
chronological row order: more than 20 qualify under After 0. -/
def dbMany : Db :=
  { users := [], auths := [],
    messages := (List.range 25).map (fun i =>
      { id := Int.ofNat i, date := 100 - i, messagetext := "m", userid := 0 }),
    nextUserId := 0, nextAuthId := 0, nextMessageId := 25 }

/-- Two live sessions with distinct tokens. -/
def appTwoTokens : ChatApp :=
  { db := dbEmpty,
    activeLogins := [{ username := "a", token := "ta", validUntil := 100 },
                     { username := "b", token := "tb", validUntil := 100 }] }

theorem scanLoop_fst (now : Nat) (token : String) :
    ∀ (ls : List ActiveLogin) (i : Nat) (f : Option String) (p : List Nat),
      (scanLoop now token ls i f p).1 = (lastLive now token ls).or f := by
  intro ls
  induction ls with
  | nil => intro i f p; simp [scanLoop, lastLive]
  | cons l ls ih =>
    intro i f p
    by_cases h1 : l.validUntil < now
    · have hlm : liveMatch now token l = false := by
        simp [liveMatch, h1]
      rw [show scanLoop now token (l :: ls) i f p =
            scanLoop now token ls (i + 1) f (p ++ [i]) from by simp [scanLoop, h1]]
      rw [ih]
      cases hc : lastLive now token ls <;> simp [lastLive, hc, hlm]
    · by_cases h2 : l.token = token
      · have hlm : liveMatch now token l = true := by
          simp [liveMatch, h1, h2]
        rw [show scanLoop now token (l :: ls) i f p =
              scanLoop now token ls (i + 1) (some l.username) p from by
            simp [scanLoop, h1, h2]]
        rw [ih]
        cases hc : lastLive now token ls <;> simp [lastLive, hc, hlm, Option.or]
      · have hlm : liveMatch now token l = false := by
          simp [liveMatch, h1, h2]
        rw [show scanLoop now token (l :: ls) i f p =
              scanLoop now token ls (i + 1) f p from by simp [scanLoop, h1, h2]]
        rw [ih]
        cases hc : lastLive now token ls <;> simp [lastLive, hc, hlm]

theorem scanLoop_snd_of_live (now : Nat) (token : String) :
    ∀ (ls : List ActiveLogin), (∀ l ∈ ls, ¬ l.validUntil < now) →
      ∀ (i : Nat) (f : Option String) (p : List Nat),
        (scanLoop now token ls i f p).2 = p := by
  intro ls
  induction ls with
  | nil => intro _ i f p; simp [scanLoop]
  | cons l ls ih =>
    intro h i f p
    have h1 : ¬ l.validUntil < now := h l (by simp)
    have hrest : ∀ l' ∈ ls, ¬ l'.validUntil < now := fun l' hl' => h l' (by simp [hl'])
    by_cases h2 : l.token = token
    · rw [show scanLoop now token (l :: ls) i f p =
            scanLoop now token ls (i + 1) (some l.username) p from by
          simp [scanLoop, h1, h2]]
      exact ih hrest (i + 1) (some l.username) p
    · rw [show scanLoop now token (l :: ls) i f p =
            scanLoop now token ls (i + 1) f p from by simp [scanLoop, h1, h2]]
      exact ih hrest (i + 1) f p

theorem lastLive_eq_some (now : Nat) (token : String) :
    ∀ (ls : List ActiveLogin) (u : String), lastLive now token ls = some u →
      ∃ l, l ∈ ls ∧ ¬ l.validUntil < now ∧ l.token = token ∧ l.username = u := by
  intro ls
  induction ls with
  | nil => intro u h; exact absurd h (by simp [lastLive])
  | cons l ls ih =>
    intro u h
    rcases hc : lastLive now token ls with _ | v
    · have hstep : lastLive now token (l :: ls) =
          (if liveMatch now token l then some l.username else none) := by
        simp [lastLive, hc]
      rw [hstep] at h
      by_cases hm : liveMatch now token l = true
      · rw [if_pos hm] at h
        have hu : l.username = u := Option.some.inj h
        have h1 : ¬ l.validUntil < now := by
          intro hlt
          simp [liveMatch, hlt] at hm
        have h2 : l.token = token := by
          by_contra htok
          simp [liveMatch, htok] at hm
        exact ⟨l, by simp, h1, h2, hu⟩
      · rw [if_neg hm] at h
        exact Option.noConfusion h
    · have hstep : lastLive now token (l :: ls) = some v := by
        simp [lastLive, hc]
      rw [hstep] at h
      have hv : v = u := Option.some.inj h
      obtain ⟨l', hl', h1, h2, h3⟩ := ih v hc
      exact ⟨l', by simp [hl'], h1, h2, hv ▸ h3⟩

theorem lastLive_eq_none_iff (now : Nat) (token : String) :
    ∀ (ls : List ActiveLogin),
      lastLive now token ls = none ↔ ∀ l ∈ ls, l.token = token → l.validUntil < now := by
  intro ls
  induction ls with
  | nil => simp [lastLive]
  | cons l ls ih =>
    rcases hc : lastLive now token ls with _ | u
    · have hstep : lastLive now token (l :: ls) =
          (if liveMatch now token l then some l.username else none) := by
        simp [lastLive, hc]
      rw [hstep]
      constructor
      · intro h l' hl' htok
        rcases List.mem_cons.mp hl' with rfl | hmem
        · by_contra hexp
          rw [if_pos (by simp [liveMatch, hexp, htok])] at h
          exact Option.noConfusion h
        · exact (ih.mp hc) l' hmem htok
      · intro h
        have hm : liveMatch now token l = false := by
          by_cases htok : l.token = token
          · have hexp := h l (by simp) htok
            simp [liveMatch, htok, hexp]
          · simp [liveMatch, htok]
        rw [hm]
        simp
    · have hstep : lastLive now token (l :: ls) = some u := by
        simp [lastLive, hc]
      rw [hstep]
      obtain ⟨l', hl', hexp, htok, _⟩ := lastLive_eq_some now token ls u hc
      simp only [reduceCtorEq, false_iff, not_forall]
      exact ⟨l', by simp [hl'], htok, hexp⟩

theorem lastLive_append (now : Nat) (token : String) :
    ∀ (ls : List ActiveLogin) (l₀ : ActiveLogin),
      lastLive now token (ls ++ [l₀]) =
        if liveMatch now token l₀ then some l₀.username else lastLive now token ls := by
  intro ls l₀
  induction ls with
  | nil =>
    by_cases hm : liveMatch now token l₀ <;> simp [lastLive, hm]
  | cons l ls ih =>
    by_cases hm : liveMatch now token l₀ <;>
      simp [List.cons_append, lastLive, ih, hm]

theorem getUsernameForToken_of_live (now : Nat) (token : String)
    (ls : List ActiveLogin) (h : ∀ l ∈ ls, ¬ l.validUntil < now) :
    getUsernameForToken now token ls = some (lastLive now token ls, ls) := by
  simp only [getUsernameForToken]
  rw [scanLoop_snd_of_live now token ls h 0 none []]
  rw [show pruneAll ls [] = some ls from rfl]
  rw [scanLoop_fst]
  cases lastLive now token ls <;> simp [Option.or]

/-- C1. The lazy prune pass of `ChatApp::get_username_for_token` collects the
indices of expired sessions against the original vector but removes them one
by one from the shrinking vector. On the session table [sessA, sessB, sessC]
(sessA and sessB expired, sessC live) observed at time 10, the pass removes
index 0 (sessA) and then index 1 of the shrunken vector, which is sessC: the
expired sessB stays in the table and the live sessC is dropped, contradicting
the claimed invariant that after any lookup expired sessions are absent and
live ones are retained unchanged. -/
theorem getUsernameForToken_prune_misremoves :
    getUsernameForToken 10 "x" [sessA, sessB, sessC] = some (none, [sessB])
    ∧ sessB.validUntil < 10 ∧ ¬ sessC.validUntil < 10 := by
  decide

/-- C2. On a session table whose two entries are both expired, the prune pass
collects the indices [0, 1]; after removing index 0 the vector has length 1,
so the second call `Vec::remove(1)` is out of bounds and the Rust code
panics (modelled by `none`), contradicting the claim that the lookup always
terminates normally. -/
theorem getUsernameForToken_prune_panics :
    getUsernameForToken 10 "x" [sessA, sessB] = none := by
  decide

/-- C3 counterexample. Failed logins do not collapse to one undifferentiated
outcome: a login for an unregistered name fails with
`DatabaseError UserNotFound` (propagated from `check_password` through the
question-mark operator), while a wrong password for a registered user fails
with `LoginFailed`; the two error values differ. -/
theorem login_failure_kinds_differ :
    appAlice.login "bob" "pw1" "tok" 50
        = (.error (.DatabaseError .UserNotFound), appAlice)
    ∧ appAlice.login "alice" "wrong" "tok" 50 = (.error .LoginFailed, appAlice)
    ∧ (AppError.DatabaseError .UserNotFound) ≠ AppError.LoginFailed := by
  decide

/-- C3 amended. The three failure paths of `ChatApp::login` surface
distinguishable errors: unknown username gives `DatabaseError UserNotFound`,
a user without a credential row gives `DatabaseError NoPasswordSet`, and a
hash mismatch gives `LoginFailed`; in each case the state is unchanged. -/
theorem login_failure_characterization :
    ∀ (app : ChatApp) (username password token : String) (now : Nat),
      (app.db.users.filter (fun u => u.username == username) = [] →
        app.login username password token now =
          (.error (.DatabaseError .UserNotFound), app))
      ∧ (∀ user, app.db.users.filter (fun u => u.username == username) = [user] →
          app.db.auths.find? (fun a => a.userid == user.id) = none →
          app.login username password token now =
            (.error (.DatabaseError .NoPasswordSet), app))
      ∧ (∀ user auth,
          app.db.users.filter (fun u => u.username == username) = [user] →
          app.db.auths.find? (fun a => a.userid == user.id) = some auth →
          verify_password password auth.hashedpassword = false →
          app.login username password token now = (.error .LoginFailed, app)) := by
  intro app username password token now
  refine ⟨?_, ?_, ?_⟩
  · intro h
    simp [ChatApp.login, check_password, get_user_by_name, h]
  · intro user h1 h2
    simp [ChatApp.login, check_password, get_user_by_name, h1, h2]
  · intro user auth h1 h2 h3
    simp [ChatApp.login, check_password, get_user_by_name, h1, h2, h3]

/-- C3 witness: the unknown-username case evaluated on the alice state. -/
theorem login_failure_witness :
    appAlice.login "bob" "pw1" "tok" 0
      = (.error (.DatabaseError .UserNotFound), appAlice) :=
  (login_failure_characterization appAlice "bob" "pw1" "tok" 0).1 (by decide)

/-- C4 amended. Token validation has no distinct expired error kind: whenever
the lookup pass returns (it can also panic, see C2), the result is `none`
exactly when no live session holds the token (whether the token is unbound or
bound only to expired sessions), and `ChatApp::get_user_for_token` then fails
with the single error `TokenInvalid`; when a live session holds the token the
returned username is the one of such a session, and the call returns the user
row of that name when the lookup by name succeeds. -/
theorem getUserForToken_characterization :
    ∀ (app : ChatApp) (token : String) (now : Nat) (res : Option String)
      (logins' : List ActiveLogin),
      getUsernameForToken now token app.activeLogins = some (res, logins') →
      ((res = none ↔ ∀ l ∈ app.activeLogins, l.token = token → l.validUntil < now)
       ∧ (res = none →
           app.getUserForToken token now =
             some (.error .TokenInvalid, { app with activeLogins := logins' }))
       ∧ ∀ u, res = some u →
           ((∃ l, l ∈ app.activeLogins ∧ ¬ l.validUntil < now ∧ l.token = token
               ∧ l.username = u)
            ∧ ∀ user, get_user_by_name app.db u = .ok user →
                app.getUserForToken token now =
                  some (.ok user, { app with activeLogins := logins' }))) := by
  intro app token now res logins' h
  have hres : res = lastLive now token app.activeLogins := by
    have hfst := scanLoop_fst now token app.activeLogins 0 none []
    have h2 := h
    simp only [getUsernameForToken] at h2
    rcases hp : pruneAll app.activeLogins
        (scanLoop now token app.activeLogins 0 none []).2 with _ | ls2
    · rw [hp] at h2
      exact absurd h2 (by simp)
    · rw [hp] at h2
      simp at h2
      rw [← h2.1, hfst]
      cases lastLive now token app.activeLogins <;> simp [Option.or]
  refine ⟨?_, ?_, ?_⟩
  · rw [hres]
    exact lastLive_eq_none_iff now token app.activeLogins
  · intro h0
    rw [h0] at h
    simp [ChatApp.getUserForToken, h]
  · intro u hu
    constructor
    · exact lastLive_eq_some now token app.activeLogins u (hres ▸ hu)
    · intro user huser
      rw [hu] at h
      simp [ChatApp.getUserForToken, h, huser]

/-- C4 counterexample. A token bound only to an expired session and a token
bound to no session at all fail with the same error value `TokenInvalid`:
there is no distinct expired error kind (`enum AppError` has no such
constructor). -/
theorem token_errors_not_distinct :
    appExpired.getUserForToken "t" 10
        = some (.error .TokenInvalid, { appExpired with activeLogins := [] })
    ∧ appFresh.getUserForToken "t" 10 = some (.error .TokenInvalid, appFresh) := by
  decide

/-- C4 witness: the expired-session case via the characterization. -/
theorem getUserForToken_expired_witness :
    appExpired.getUserForToken "t" 10
      = some (.error .TokenInvalid, { appExpired with activeLogins := [] }) :=
  (getUserForToken_characterization appExpired "t" 10 none [] (by decide)).2.1 rfl

/-- C5. Time-filtered message query: every returned message is a stored
message satisfying the strict bound (earlier than t for Before, later than t
for After); the result is ordered by date ascending; its length is exactly the
minimum of 20 and the number of qualifying messages (so at most 20, and
exactly 20 whenever more than 20 qualify); it is a sub-multiset of the
qualifying messages, and exactly the qualifying messages when at most 20
qualify; and every qualifying message not fully returned is at least as new as
every returned one — together with the exact length and the multiset
inclusion this pins the overflow result to the 20 oldest qualifying messages
(up to date ties). -/
theorem get_messages_filter_order_cap :
    ∀ (db : Db) (t : Nat),
      (∀ m ∈ get_messages db (.Before t), m ∈ db.messages ∧ m.date < t)
      ∧ (∀ m ∈ get_messages db (.After t), m ∈ db.messages ∧ t < m.date)
      ∧ ∀ f : MessageFilter,
          List.Sorted dateLe (get_messages db f)
          ∧ (get_messages db f).length
              = min 20 (db.messages.filter (matchesFilter f)).length
          ∧ (∀ m : Message, (get_messages db f).count m
              ≤ (db.messages.filter (matchesFilter f)).count m)
          ∧ ((db.messages.filter (matchesFilter f)).length ≤ 20 →
              List.Perm (get_messages db f) (db.messages.filter (matchesFilter f)))
          ∧ (∀ y : Message,
              (get_messages db f).count y
                < (db.messages.filter (matchesFilter f)).count y →
              ∀ x ∈ get_messages db f, x.date ≤ y.date)
          ∧ (∀ y ∈ db.messages, matchesFilter f y = true →
              y ∉ get_messages db f →
              ∀ x ∈ get_messages db f, x.date ≤ y.date) := by
  intro db t
  have hmem : ∀ (f : MessageFilter), ∀ m ∈ get_messages db f,
      m ∈ db.messages ∧ matchesFilter f m = true := by
    intro f m hm
    have h1 : m ∈ List.insertionSort dateLe (db.messages.filter (matchesFilter f)) :=
      List.mem_of_mem_take hm
    have h2 : m ∈ db.messages.filter (matchesFilter f) :=
      (List.perm_insertionSort dateLe _).mem_iff.mp h1
    exact List.mem_filter.mp h2
  refine ⟨?_, ?_, ?_⟩
  · intro m hm
    obtain ⟨h1, h2⟩ := hmem (.Before t) m hm
    exact ⟨h1, by simpa [matchesFilter] using h2⟩
  · intro m hm
    obtain ⟨h1, h2⟩ := hmem (.After t) m hm
    exact ⟨h1, by simpa [matchesFilter] using h2⟩
  · intro f
    have hgm : get_messages db f =
        (List.insertionSort dateLe (db.messages.filter (matchesFilter f))).take 20 :=
      rfl
    have hperm := List.perm_insertionSort dateLe (db.messages.filter (matchesFilter f))
    refine ⟨?_, ?_, ?_, ?_, ?_, ?_⟩
    · rw [hgm]
      exact (List.sorted_insertionSort dateLe _).sublist (List.take_sublist 20 _)
    · rw [hgm, List.length_take, hperm.length_eq]
    · intro m
      rw [hgm]
      exact Nat.le_trans ((List.take_sublist 20 _).count_le m) (Nat.le_of_eq (hperm.count_eq m))
    · intro hle
      have hlen :
          (List.insertionSort dateLe (db.messages.filter (matchesFilter f))).length
            ≤ 20 := by
        rw [hperm.length_eq]
        exact hle
      rw [hgm, List.take_of_length_le hlen]
      exact hperm
    · intro y hy x hx
      rw [hgm] at hy hx
      have hq : (db.messages.filter (matchesFilter f)).count y
          = (List.insertionSort dateLe (db.messages.filter (matchesFilter f))).count y :=
        (hperm.count_eq y).symm
      have hcnt : (List.insertionSort dateLe (db.messages.filter (matchesFilter f))).count y
          = ((List.insertionSort dateLe (db.messages.filter (matchesFilter f))).take 20).count y
            + ((List.insertionSort dateLe (db.messages.filter (matchesFilter f))).drop 20).count y := by
        rw [← List.count_append, List.take_append_drop]
      have hpos : 0 <
          ((List.insertionSort dateLe (db.messages.filter (matchesFilter f))).drop 20).count y := by
        omega
      have hydrop : y ∈
          (List.insertionSort dateLe (db.messages.filter (matchesFilter f))).drop 20 :=
        List.count_pos_iff.mp hpos
      have hsorted : List.Pairwise dateLe
          (List.insertionSort dateLe (db.messages.filter (matchesFilter f))) :=
        List.sorted_insertionSort dateLe _
      rw [← List.take_append_drop 20
        (List.insertionSort dateLe (db.messages.filter (matchesFilter f)))] at hsorted
      exact (List.pairwise_append.mp hsorted).2.2 x hx y hydrop
    · intro y hy hmatch hnot x hx
      rw [hgm] at hnot hx
      have hy2 : y ∈ List.insertionSort dateLe (db.messages.filter (matchesFilter f)) :=
        hperm.mem_iff.mpr (List.mem_filter.mpr ⟨hy, hmatch⟩)
      have hsorted : List.Pairwise dateLe
          (List.insertionSort dateLe (db.messages.filter (matchesFilter f))) :=
        List.sorted_insertionSort dateLe _
      rw [← List.take_append_drop 20
        (List.insertionSort dateLe (db.messages.filter (matchesFilter f)))] at hy2 hsorted
      rcases List.mem_append.mp hy2 with hcase | hcase
      · exact absurd hcase hnot
      · exact (List.pairwise_append.mp hsorted).2.2 x hx y hcase

/-- C5 witness: on a three-message store the Before-5 query returns exactly
the qualifying messages; on a 25-message store where every message qualifies
under After 0 the query returns exactly 20 of them, and the not-returned
qualifying message with date 96 is at least as new as every returned one. -/
theorem get_messages_query_witness :
    ((dbMsgs.messages.filter (matchesFilter (.Before 5))).length ≤ 20
      ∧ List.Perm (get_messages dbMsgs (.Before 5))
          (dbMsgs.messages.filter (matchesFilter (.Before 5))))
    ∧ (get_messages dbMany (.After 0)).length = 20
    ∧ (get_messages dbMany (.After 0)).count
          { id := 4, date := 96, messagetext := "m", userid := 0 }
        < (dbMany.messages.filter (matchesFilter (.After 0))).count
          { id := 4, date := 96, messagetext := "m", userid := 0 }
    ∧ ∀ x ∈ get_messages dbMany (.After 0), x.date ≤ 96 :=
  ⟨⟨by decide, ((get_messages_filter_order_cap dbMsgs 5).2.2 (.Before 5)).2.2.2.1 (by decide)⟩,
   by rw [((get_messages_filter_order_cap dbMany 0).2.2 (.After 0)).2.1]; decide,
   by decide,
   ((get_messages_filter_order_cap dbMany 0).2.2 (.After 0)).2.2.2.2.1
     { id := 4, date := 96, messagetext := "m", userid := 0 } (by decide)⟩

/-- C6 amended. Sending a message appends exactly one message row carrying the
text, the author id and the server-assigned timestamp, but its success value
is unit (the Rust function returns `Result<(), AppError>`, not the stored
message); when the token resolves to no live session the call fails with
`TokenInvalid` and the store is untouched. -/
theorem sendMessage_characterization :
    ∀ (app : ChatApp) (token text : String) (now : Nat) (res : Option String)
      (logins' : List ActiveLogin),
      getUsernameForToken now token app.activeLogins = some (res, logins') →
      ((res = none →
          app.sendMessage token text now =
            some (.error .TokenInvalid, { app with activeLogins := logins' }))
       ∧ ∀ u user, res = some u → get_user_by_name app.db u = .ok user →
           app.sendMessage token text now =
             some (.ok (),
               { db := { app.db with
                   messages := app.db.messages ++
                     [{ id := app.db.nextMessageId, date := now,
                        messagetext := text, userid := user.id }],
                   nextMessageId := app.db.nextMessageId + 1 },
                 activeLogins := logins' })) := by
  intro app token text now res logins' h
  constructor
  · intro h0
    rw [h0] at h
    simp [ChatApp.sendMessage, ChatApp.getUserForToken, h]
  · intro u user hu huser
    rw [hu] at h
    simp [ChatApp.sendMessage, ChatApp.getUserForToken, h, huser, create_message]

/-- C6 counterexample. On a live session the call succeeds: the message row is
stored with author id, text and timestamp, but the returned success value is
`()` — no stored Message record is returned to the caller. -/
theorem sendMessage_returns_unit :
    appAliceLive.sendMessage "t" "hi" 55
      = some (.ok (),
          { db := { dbAlice with
              messages := [{ id := 0, date := 55, messagetext := "hi", userid := 0 }],
              nextMessageId := 1 },
            activeLogins := appAliceLive.activeLogins }) := by
  decide

/-- C6 witness: the success case of the characterization at a concrete
state. -/
theorem sendMessage_witness :
    appAliceLive.sendMessage "t" "hello" 60
      = some (.ok (),
          { db := { dbAlice with
              messages := [{ id := 0, date := 60, messagetext := "hello", userid := 0 }],
              nextMessageId := 1 },
            activeLogins := appAliceLive.activeLogins }) := by
  have h := (sendMessage_characterization appAliceLive "t" "hello" 60 (some "alice")
      appAliceLive.activeLogins (by decide)).2 "alice"
      { id := 0, username := "alice" } rfl (by decide)
  simpa using h


theorem get_user_by_name_single (db : Db) (username : String) (user : User)
    (h : db.users.filter (fun u => u.username == username) = [user]) :
    get_user_by_name db username = .ok user := by
  simp [get_user_by_name, h]

theorem create_user_inserts (db : Db) (username : String)
    (h : db.users.filter (fun u => u.username == username) = []) :
    create_user db username = (.ok (), { db with
      users := db.users ++ [{ id := db.nextUserId, username := username }],
      nextUserId := db.nextUserId + 1 }) := by
  have hguf : get_user_by_name db username = .error .UserNotFound := by
    simp [get_user_by_name, h]
  simp [create_user, hguf, exceptIsOk]

theorem filter_users_append (users : List User) (username : String) (n : Int)
    (h : users.filter (fun u => u.username == username) = []) :
    (users ++ [({ id := n, username := username } : User)]).filter
      (fun u => u.username == username) = [({ id := n, username := username } : User)] := by
  rw [List.filter_append, h]
  simp

theorem find?_map_update (uid : Int) (hash : HashString) :
    ∀ (auths : List Authentication),
      auths.any (fun a => a.userid == uid) = true →
      ∃ b, (auths.map (fun a =>
          if a.userid == uid then { a with hashedpassword := hash } else a)).find?
            (fun a => a.userid == uid) = some b
        ∧ b.hashedpassword = hash := by
  intro auths
  induction auths with
  | nil => intro h; exact absurd h (by simp)
  | cons x xs ih =>
    intro h
    rw [List.map_cons]
    by_cases hx : (x.userid == uid) = true
    · refine ⟨{ x with hashedpassword := hash }, ?_, rfl⟩
      rw [if_pos hx]
      exact List.find?_cons_of_pos _ hx
    · rw [if_neg hx]
      have h2 : xs.any (fun a => a.userid == uid) = true := by
        rw [List.any_cons] at h
        simpa [hx] using h
      obtain ⟨b, hb1, hb2⟩ := ih h2
      refine ⟨b, ?_, hb2⟩
      have hstep : (x :: (xs.map fun a =>
          if a.userid == uid then { a with hashedpassword := hash } else a)).find?
            (fun a => a.userid == uid)
          = (xs.map fun a =>
              if a.userid == uid then { a with hashedpassword := hash } else a).find?
            (fun a => a.userid == uid) :=
        List.find?_cons_of_neg _ hx
      rw [hstep, hb1]

theorem check_password_of_find (db : Db) (username password : String) (user : User)
    (hu : get_user_by_name db username = .ok user) (auth : Authentication)
    (hf : db.auths.find? (fun a => a.userid == user.id) = some auth)
    (hv : verify_password password auth.hashedpassword = true) :
    check_password db username password = .ok true := by
  simp only [check_password, hu, hf, hv]

/-- C7. Registering an unused username and then logging in with the same pair
succeeds, and the issued token validates to that username, provided no session
in the table is already expired at validation time (otherwise the prune pass
can panic or misremove entries, see C1 and C2). -/
theorem register_login_validate_round_trip :
    ∀ (app : ChatApp) (username password tok : String) (salt now : Nat),
      (∀ u ∈ app.db.users, u.username ≠ username) →
      (∀ l ∈ app.activeLogins, ¬ l.validUntil < now) →
      ∃ app1 app2,
        app.register username password salt true = (.ok (), app1)
        ∧ app1.login username password tok now = (.ok tok, app2)
        ∧ app2.activeLogins = app.activeLogins ++ [ActiveLogin.new username tok now]
        ∧ getUsernameForToken now tok app2.activeLogins
            = some (some username, app2.activeLogins) := by
  intro app username password tok salt now h1 h2
  have hfil : app.db.users.filter (fun u => u.username == username) = [] := by
    rw [List.filter_eq_nil_iff]
    intro u hu
    simp [h1 u hu]
  set newU : User := { id := app.db.nextUserId, username := username } with hnewU
  set db1 : Db := { app.db with users := app.db.users ++ [newU], nextUserId := app.db.nextUserId + 1 } with hdb1
  have hcreate : create_user app.db username = (.ok (), db1) :=
    create_user_inserts app.db username hfil
  have hfil1 : db1.users.filter (fun u => u.username == username) = [newU] :=
    filter_users_append app.db.users username app.db.nextUserId hfil
  have hguf1 : get_user_by_name db1 username = .ok newU :=
    get_user_by_name_single db1 username newU hfil1
  have hmain : ∀ db2 : Db,
      set_password db1 username password salt true = (.ok (), db2) →
      check_password db2 username password = .ok true →
      ∃ app1 app2,
        app.register username password salt true = (.ok (), app1)
        ∧ app1.login username password tok now = (.ok tok, app2)
        ∧ app2.activeLogins = app.activeLogins ++ [ActiveLogin.new username tok now]
        ∧ getUsernameForToken now tok app2.activeLogins
            = some (some username, app2.activeLogins) := by
    intro db2 hset hcp
    have hreg : app.register username password salt true = (.ok (), { app with db := db2 }) := by
      simp [ChatApp.register, hcreate, hset]
    have hlogin : ({ app with db := db2 } : ChatApp).login username password tok now = (.ok tok, { app with db := db2, activeLogins := app.activeLogins ++ [ActiveLogin.new username tok now] }) := by
      simp [ChatApp.login, hcp]
    have hnotexp : ¬ now + 1200 < now := by omega
    have hlive : ∀ l ∈ app.activeLogins ++ [ActiveLogin.new username tok now], ¬ l.validUntil < now := by
      intro l hl
      rcases List.mem_append.mp hl with hmem | hmem
      · exact h2 l hmem
      · have hleq : l = ActiveLogin.new username tok now := by simpa using hmem
        rw [hleq]
        simp [ActiveLogin.new]
    have hval := getUsernameForToken_of_live now tok (app.activeLogins ++ [ActiveLogin.new username tok now]) hlive
    have hcond : liveMatch now tok (ActiveLogin.new username tok now) = true := by
      simp [liveMatch, ActiveLogin.new, hnotexp]
    have hlast : lastLive now tok (app.activeLogins ++ [ActiveLogin.new username tok now]) = some username := by
      rw [lastLive_append, if_pos hcond]
      exact rfl
    refine ⟨{ app with db := db2 }, { app with db := db2, activeLogins := app.activeLogins ++ [ActiveLogin.new username tok now] }, hreg, hlogin, rfl, ?_⟩
    show getUsernameForToken now tok (app.activeLogins ++ [ActiveLogin.new username tok now]) = some (some username, app.activeLogins ++ [ActiveLogin.new username tok now])
    rw [hval, hlast]
  cases hany : db1.auths.any (fun a => a.userid == newU.id) with
  | false =>
    have hset : set_password db1 username password salt true = (.ok (), { db1 with auths := db1.auths ++ [{ id := db1.nextAuthId, userid := newU.id, hashedpassword := generate_hash password salt }], nextAuthId := db1.nextAuthId + 1 }) := by
      simp [set_password, hguf1, hany]
    have hguf2 : get_user_by_name ({ db1 with auths := db1.auths ++ [{ id := db1.nextAuthId, userid := newU.id, hashedpassword := generate_hash password salt }], nextAuthId := db1.nextAuthId + 1 } : Db) username = .ok newU :=
      get_user_by_name_single _ username newU hfil1
    have hnone : db1.auths.find? (fun a => a.userid == newU.id) = none := by
      rw [List.find?_eq_none]
      intro a ha hpa
      have hcontra : db1.auths.any (fun a => a.userid == newU.id) = true :=
        List.any_eq_true.mpr ⟨a, ha, hpa⟩
      rw [hany] at hcontra
      exact Bool.noConfusion hcontra
    have hfind : (db1.auths ++ [({ id := db1.nextAuthId, userid := newU.id, hashedpassword := generate_hash password salt } : Authentication)]).find? (fun a => a.userid == newU.id) = some ({ id := db1.nextAuthId, userid := newU.id, hashedpassword := generate_hash password salt } : Authentication) := by
      rw [List.find?_append, hnone]
      simp [List.find?]
    have hcp := check_password_of_find _ username password newU hguf2
      ({ id := db1.nextAuthId, userid := newU.id, hashedpassword := generate_hash password salt } : Authentication) hfind
      (by simp [verify_password, generate_hash])
    exact hmain _ hset hcp
  | true =>
    have hset : set_password db1 username password salt true = (.ok (), { db1 with auths := db1.auths.map (fun a => if a.userid == newU.id then { a with hashedpassword := generate_hash password salt } else a) }) := by
      simp [set_password, hguf1, hany]
    have hguf2 : get_user_by_name ({ db1 with auths := db1.auths.map (fun a => if a.userid == newU.id then { a with hashedpassword := generate_hash password salt } else a) } : Db) username = .ok newU :=
      get_user_by_name_single _ username newU hfil1
    obtain ⟨b, hb1, hb2⟩ :=
      find?_map_update newU.id (generate_hash password salt) db1.auths hany
    have hcp := check_password_of_find _ username password newU hguf2 b hb1
      (by rw [hb2]; simp [verify_password, generate_hash])
    exact hmain _ hset hcp

/-- C7 witness: the round trip evaluated from the fresh state. -/
theorem register_login_validate_witness :
    (∀ u ∈ appFresh.db.users, u.username ≠ "alice")
    ∧ (∀ l ∈ appFresh.activeLogins, ¬ l.validUntil < 9)
    ∧ ∃ app1 app2,
        appFresh.register "alice" "pw1" 7 true = (.ok (), app1)
        ∧ app1.login "alice" "pw1" "tk" 9 = (.ok "tk", app2)
        ∧ app2.activeLogins = appFresh.activeLogins ++ [ActiveLogin.new "alice" "tk" 9]
        ∧ getUsernameForToken 9 "tk" app2.activeLogins
            = some (some "alice", app2.activeLogins) :=
  ⟨by simp [appFresh, dbEmpty], by simp [appFresh],
    register_login_validate_round_trip appFresh "alice" "pw1" "tk" 7 9
      (by simp [appFresh, dbEmpty]) (by simp [appFresh])⟩

theorem getUsernameForToken_fst :
    ∀ (now : Nat) (token : String) (ls : List ActiveLogin)
      (res : Option String) (logins' : List ActiveLogin),
      getUsernameForToken now token ls = some (res, logins') →
      res = lastLive now token ls := by
  intro now token ls res logins' h
  have hfst := scanLoop_fst now token ls 0 none []
  simp only [getUsernameForToken] at h
  rcases hp : pruneAll ls (scanLoop now token ls 0 none []).2 with _ | ls2
  · rw [hp] at h
    exact absurd h (by simp)
  · rw [hp] at h
    simp at h
    rw [← h.1, hfst]
    cases lastLive now token ls <;> simp [Option.or]

theorem logoutList_eq_filter (token : String) :
    ∀ (ls : List ActiveLogin),
      (ls.filter (fun l => l.token == token)).length ≤ 1 →
      logoutList token ls = ls.filter (fun l => !(l.token == token)) := by
  intro ls
  induction ls with
  | nil => intro _; rfl
  | cons l ls ih =>
    intro h
    rw [List.filter_cons] at h
    by_cases hl : (l.token == token) = true
    · rw [if_pos hl] at h
      have hnil : ls.filter (fun l => l.token == token) = [] := by
        rw [← List.length_eq_zero]
        simpa using h
      have hall : ∀ x ∈ ls, (!(x.token == token)) = true := by
        intro x hx
        by_contra hpx
        have hxin : x ∈ ls.filter (fun l => l.token == token) :=
          List.mem_filter.mpr ⟨hx, by simpa using hpx⟩
        rw [hnil] at hxin
        exact absurd hxin (List.not_mem_nil x)
      have hself : ls.filter (fun l => !(l.token == token)) = ls :=
        List.filter_eq_self.mpr hall
      rw [show logoutList token (l :: ls) = ls from by simp [logoutList, hl]]
      rw [List.filter_cons, if_neg (by simp [hl]), hself]
    · rw [if_neg hl] at h
      rw [show logoutList token (l :: ls) = l :: logoutList token ls from by
        simp [logoutList, hl]]
      rw [ih h, List.filter_cons, if_pos (by simpa using hl)]

/-- C8. Logout removes the session holding the token (assuming the token is
held by at most one session, the stated uniqueness invariant) and leaves every
session with a different token unchanged: the resulting table is exactly the
original table filtered to the other tokens, no remaining session holds the
token, and any lookup of that token that returns reports no username. The Rust
function returns unit, so the operation surfaces no error by construction. -/
theorem logout_removes_and_frames :
    ∀ (app : ChatApp) (token : String),
      (app.activeLogins.filter (fun l => l.token == token)).length ≤ 1 →
      ((app.logout token).activeLogins
          = app.activeLogins.filter (fun l => !(l.token == token))
       ∧ (∀ l ∈ (app.logout token).activeLogins, l.token ≠ token)
       ∧ ∀ (now : Nat) (res : Option String) (logins' : List ActiveLogin),
           getUsernameForToken now token (app.logout token).activeLogins
             = some (res, logins') → res = none) := by
  intro app token h
  have heq : (app.logout token).activeLogins
      = app.activeLogins.filter (fun l => !(l.token == token)) :=
    logoutList_eq_filter token app.activeLogins h
  have hno : ∀ l ∈ (app.logout token).activeLogins, l.token ≠ token := by
    intro l hl
    rw [heq] at hl
    have hmem := List.mem_filter.mp hl
    simpa using hmem.2
  refine ⟨heq, hno, ?_⟩
  intro now res logins' hres
  rw [getUsernameForToken_fst now token _ res logins' hres, lastLive_eq_none_iff]
  intro l hl htok
  exact absurd htok (hno l hl)

/-- C8 witness: logging out token ta from a two-session table removes exactly
the ta session. -/
theorem logout_witness :
    (appTwoTokens.activeLogins.filter (fun l => l.token == "ta")).length ≤ 1
    ∧ (appTwoTokens.logout "ta").activeLogins
        = appTwoTokens.activeLogins.filter (fun l => !(l.token == "ta")) :=
  ⟨by decide, (logout_removes_and_frames appTwoTokens "ta" (by decide)).1⟩

/-- C9 counterexample. Token issuance performs no uniqueness check: logging in
twice while the random generator happens to produce the same token (modelled
by passing the same token parameter) yields two simultaneously active sessions
holding the same token, so a token can map to two sessions. -/
theorem duplicate_token_sessions :
    (((appAlice.login "alice" "pw1" "t" 50).2).login "alice" "pw1" "t" 60).2.activeLogins
        = [{ username := "alice", token := "t", validUntil := 1250 },
           { username := "alice", token := "t", validUntil := 1260 }]
    ∧ ((((appAlice.login "alice" "pw1" "t" 50).2).login "alice" "pw1"
          "t" 60).2.activeLogins.filter (fun l => l.token == "t")).length = 2 := by
  decide

/-- C9 amended. Provided the generated token differs from every token already
in the table (the collision-free randomness assumption), a successful login
preserves pairwise distinctness of the active tokens and the new token maps to
exactly one session; hence issuing N sessions with pairwise-distinct generated
tokens yields N sessions with pairwise-distinct tokens. -/
theorem login_fresh_token_unique :
    ∀ (app : ChatApp) (username password tok : String) (now : Nat) (app' : ChatApp),
      app.login username password tok now = (.ok tok, app') →
      (app.activeLogins.map (fun l => l.token)).Nodup →
      tok ∉ app.activeLogins.map (fun l => l.token) →
      (app'.activeLogins.map (fun l => l.token)).Nodup
      ∧ (app'.activeLogins.filter (fun l => l.token == tok)).length = 1 := by
  intro app username password tok now app' h hnd hfresh
  have hpush : app'.activeLogins
      = app.activeLogins ++ [ActiveLogin.new username tok now] := by
    simp only [ChatApp.login] at h
    rcases hc : check_password app.db username password with e | b
    · rw [hc] at h
      simp at h
    · rw [hc] at h
      cases b
      · simp at h
      · simp at h
        rw [← h]
  constructor
  · rw [hpush, List.map_append, List.nodup_append]
    refine ⟨hnd, by simp, ?_⟩
    intro a ha hb
    have : a = tok := by simpa [ActiveLogin.new] using hb
    rw [this] at ha
    exact hfresh ha
  · rw [hpush, List.filter_append]
    have hnil : app.activeLogins.filter (fun l => l.token == tok) = [] := by
      rw [List.filter_eq_nil_iff]
      intro l hl
      simp only [Bool.not_eq_true]
      rw [Bool.eq_false_iff]
      intro heq
      exact hfresh (List.mem_map.mpr ⟨l, hl, by simpa using heq⟩)
    rw [hnil]
    simp [ActiveLogin.new]

/-- C9 witness: a fresh token issued on the alice state. -/
theorem login_fresh_token_witness :
    (((appAlice.login "alice" "pw1" "tb" 50).2).activeLogins.map
        (fun l => l.token)).Nodup
    ∧ (((appAlice.login "alice" "pw1" "tb" 50).2).activeLogins.filter
        (fun l => l.token == "tb")).length = 1 :=
  login_fresh_token_unique appAlice "alice" "pw1" "tb" 50
    (appAlice.login "alice" "pw1" "tb" 50).2 (by decide) (by decide) (by decide)

/-- C10 counterexample. `ChatApp::register` wraps no transaction around its
two writes: when the credential write fails after the user row was inserted,
the call fails but the user record persists with no credential row — a
partial commit. -/
theorem register_partial_commit :
    (appFresh.register "alice" "pw1" 7 false).1
        = .error (.DatabaseError .GenericError)
    ∧ (appFresh.register "alice" "pw1" 7 false).2.db.users
        = [{ id := 0, username := "alice" }]
    ∧ (appFresh.register "alice" "pw1" 7 false).2.db.auths = [] := by
  decide

/-- C10 amended. Registration behaves as follows: when a user with the name
already exists (as a single row) nothing is written and the call fails with
`UsernameInUse`; when the name is free but the credential write fails, the
call fails with the storage error yet the freshly inserted user row persists
while the credential table is unchanged (partial commit); when the name is
free and storage succeeds, both the user row and a credential row carrying the
password hash exist. -/
theorem register_commit_characterization :
    ∀ (app : ChatApp) (username password : String) (salt : Nat),
      (∀ (user : User) (ok : Bool),
        app.db.users.filter (fun u => u.username == username) = [user] →
        app.register username password salt ok
          = (.error (.DatabaseError .UsernameInUse), app))
      ∧ (app.db.users.filter (fun u => u.username == username) = [] →
          (∃ db', app.register username password salt false
              = (.error (.DatabaseError .GenericError), { app with db := db' })
            ∧ db'.users = app.db.users
                ++ [{ id := app.db.nextUserId, username := username }]
            ∧ db'.auths = app.db.auths)
          ∧ ∃ db', app.register username password salt true
              = (.ok (), { app with db := db' })
            ∧ db'.users = app.db.users
                ++ [{ id := app.db.nextUserId, username := username }]
            ∧ ∃ a ∈ db'.auths, a.userid = app.db.nextUserId
                ∧ a.hashedpassword = generate_hash password salt) := by
  intro app username password salt
  constructor
  · intro user ok h
    have hguf : get_user_by_name app.db username = .ok user :=
      get_user_by_name_single app.db username user h
    simp [ChatApp.register, create_user, hguf, exceptIsOk]
  · intro hfil
    set newU : User := { id := app.db.nextUserId, username := username } with hnewU
    set db1 : Db := { app.db with users := app.db.users ++ [newU], nextUserId := app.db.nextUserId + 1 } with hdb1
    have hcreate : create_user app.db username = (.ok (), db1) :=
      create_user_inserts app.db username hfil
    have hfil1 : db1.users.filter (fun u => u.username == username) = [newU] :=
      filter_users_append app.db.users username app.db.nextUserId hfil
    have hguf1 : get_user_by_name db1 username = .ok newU :=
      get_user_by_name_single db1 username newU hfil1
    constructor
    · have hsetf : set_password db1 username password salt false
          = (.error .GenericError, db1) := by
        simp only [set_password, hguf1]
        cases db1.auths.any (fun a => a.userid == newU.id) <;> simp
      refine ⟨db1, ?_, rfl, rfl⟩
      simp [ChatApp.register, hcreate, hsetf]
    · cases hany : db1.auths.any (fun a => a.userid == newU.id) with
      | false =>
        have hset : set_password db1 username password salt true = (.ok (), { db1 with auths := db1.auths ++ [({ id := db1.nextAuthId, userid := newU.id, hashedpassword := generate_hash password salt } : Authentication)], nextAuthId := db1.nextAuthId + 1 }) := by
          simp [set_password, hguf1, hany]
        refine ⟨{ db1 with auths := db1.auths ++ [({ id := db1.nextAuthId, userid := newU.id, hashedpassword := generate_hash password salt } : Authentication)], nextAuthId := db1.nextAuthId + 1 }, ?_, rfl, ?_⟩
        · simp [ChatApp.register, hcreate, hset]
        · refine ⟨({ id := db1.nextAuthId, userid := newU.id, hashedpassword := generate_hash password salt } : Authentication), by simp, rfl, rfl⟩
      | true =>
        have hset : set_password db1 username password salt true = (.ok (), { db1 with auths := db1.auths.map (fun a => if a.userid == newU.id then { a with hashedpassword := generate_hash password salt } else a) }) := by
          simp [set_password, hguf1, hany]
        obtain ⟨a, ha, hpa⟩ := List.any_eq_true.mp hany
        refine ⟨{ db1 with auths := db1.auths.map (fun a => if a.userid == newU.id then { a with hashedpassword := generate_hash password salt } else a) }, ?_, rfl, ?_⟩
        · simp [ChatApp.register, hcreate, hset]
        · refine ⟨{ a with hashedpassword := generate_hash password salt }, ?_, ?_, rfl⟩
          · have hmem := List.mem_map_of_mem (fun a =>
              if a.userid == newU.id
              then { a with hashedpassword := generate_hash password salt } else a) ha
            simpa [hpa] using hmem
          · have huid : a.userid = newU.id := by simpa using hpa
            exact huid

/-- C10 witness: the success case on the alice state registering bob. -/
theorem register_commit_witness :
    ∃ db', appAlice.register "bob" "pw2" 3 true = (.ok (), { appAlice with db := db' })
      ∧ db'.users = appAlice.db.users
          ++ [{ id := appAlice.db.nextUserId, username := "bob" }]
      ∧ ∃ a ∈ db'.auths, a.userid = appAlice.db.nextUserId
          ∧ a.hashedpassword = generate_hash "pw2" 3 :=
  ((register_commit_characterization appAlice "bob" "pw2" 3).2 (by decide)).2
